import Mathlib

/-!
# Verification of the workshop diagram component (`src/app/app.ts`)

The repository is an Angular component driving the GoJS diagramming
library.  The component's own code (node/link sample data, the example
catalog, `addNode`, `removeSelectedNode`, `toggleStatus`,
`selectExample`/`loadExample`, `updateModel`, the binding converters and
the node templates) is embedded below directly from `src/app/app.ts`.

The graph-model engine that the component calls into
(`addNodeData`, `removeNodeData`, `setDataProperty`, the undo manager,
selection) lives in the external GoJS library, whose code is not part of
the repository; those operations are modelled from the specification
(§3, §4.3, §4.4, §7): edits are reversible descriptors grouped into
transactions, structural violations fail fast leaving the model
unchanged, `removeNodeData` cascades removal of referencing links, and
`undo` applies the inverse edits of the most recent committed
transaction in reverse order.
-/

/-- A JavaScript numeric node key.  The component computes fresh keys with
`Math.max(...this.nodeDataArray.map(n => n.key)) + 1`; on an empty array
`Math.max()` returns `-Infinity`, and `-Infinity + 1 = -Infinity`, so keys
are integers extended with `-Infinity`. -/
inductive Key where
  | negInf : Key
  | int (k : Int) : Key
deriving DecidableEq, Repr

/-- `Math.max` on two keys. -/
def Key.max : Key → Key → Key
  | .negInf, b => b
  | a, .negInf => a
  | .int a, .int b => .int (Max.max a b)

/-- JavaScript `+ 1` on a key (`-Infinity + 1 = -Infinity`). -/
def Key.add1 : Key → Key
  | .negInf => .negInf
  | .int a => .int (a + 1)

/-- JavaScript string interpolation of a key (used by `addNode` for
`"Person " + newKey`). -/
def Key.render : Key → String
  | .negInf => "-Infinity"
  | .int a => toString a

/-- Node record, from the `NodeData` interface (app.ts lines 5–10).
`status` and `role` are optional string-union fields; they are kept as
`Option String` to mirror the JavaScript runtime values
(`'active' | 'inactive'`, `'manager' | 'employee'`, or `undefined`). -/
structure NodeData where
  key : Key
  name : String
  status : Option String := none
  role : Option String := none
deriving DecidableEq, Repr

/-- Link record, from the `LinkData` interface (app.ts lines 12–15). -/
structure LinkData where
  «from» : Key
  «to» : Key
deriving DecidableEq, Repr

/-- The graph model: ordered node records plus ordered link records
(spec §3 GraphModel; GoJS `GraphLinksModel`). -/
structure GraphModel where
  nodeDataArray : List NodeData
  linkDataArray : List LinkData
deriving DecidableEq, Repr

/-- Look a node record up by key (identity is by key, spec §3). -/
def GraphModel.findNode (m : GraphModel) (k : Key) : Option NodeData :=
  m.nodeDataArray.find? (fun n => n.key == k)

/-- No two live nodes share a key (spec §8, first property). -/
def GraphModel.NodupKeys (m : GraphModel) : Prop :=
  (m.nodeDataArray.map (·.key)).Nodup

instance (m : GraphModel) : Decidable m.NodupKeys := by
  unfold GraphModel.NodupKeys; infer_instance

/-- Modelled from the spec: the atomic, reversible model edits recorded in
a transaction (§3 Transaction, §4.3).  The GoJS model implementation is
not in the repository.  `set-property` is specialised to the `status`
field, the only node property the component ever mutates
(`toggleStatus`); it records the old value so the edit is reversible. -/
inductive Edit where
  | addNode (r : NodeData)
  | removeNode (r : NodeData)
  | addLink (l : LinkData)
  | removeLink (l : LinkData)
  | setProperty (k : Key) (old new : Option String)
deriving DecidableEq, Repr

/-- The inverse of an edit, used by `undo` (spec §4.4). -/
def Edit.inverse : Edit → Edit
  | .addNode r => .removeNode r
  | .removeNode r => .addNode r
  | .addLink l => .removeLink l
  | .removeLink l => .addLink l
  | .setProperty k old new => .setProperty k new old

/-- Set the `status` field of the node with key `k`. -/
def updStatus (k : Key) (v : Option String) (n : NodeData) : NodeData :=
  if n.key == k then { n with status := v } else n

/-- Modelled from the spec: applying one atomic edit to the model
(§4.3, §7).  Structural violations (`DuplicateKey` on add,
`UnknownRecord` on remove, a stale old value on set-property) fail fast
and leave the model unchanged, represented by `none`. -/
def applyEdit (m : GraphModel) : Edit → Option GraphModel
  | .addNode r =>
      if m.nodeDataArray.any (fun n => n.key == r.key) then none
      else some { m with nodeDataArray := m.nodeDataArray ++ [r] }
  | .removeNode r =>
      if m.nodeDataArray.contains r then
        some { m with nodeDataArray := m.nodeDataArray.filter (fun n => !(n.key == r.key)) }
      else none
  | .addLink l => some { m with linkDataArray := m.linkDataArray ++ [l] }
  | .removeLink l =>
      if m.linkDataArray.contains l then
        some { m with linkDataArray := m.linkDataArray.erase l }
      else none
  | .setProperty k old new =>
      if m.nodeDataArray.any (fun n => n.key == k && n.status == old) then
        some { m with nodeDataArray := m.nodeDataArray.map (updStatus k new) }
      else none

/-- Apply a sequence of edits (a transaction body) in order; fails if any
edit fails. -/
def applyEdits : GraphModel → List Edit → Option GraphModel
  | m, [] => some m
  | m, e :: es =>
      match applyEdit m e with
      | some m' => applyEdits m' es
      | none => none

/-- Two models with the same node-record multiset and the same
link-record multiset ("value equality on node/link record sets",
spec §8). -/
def MEquiv (m₁ m₂ : GraphModel) : Prop :=
  m₁.nodeDataArray.Perm m₂.nodeDataArray ∧ m₁.linkDataArray.Perm m₂.linkDataArray

theorem MEquiv.refl (m : GraphModel) : MEquiv m m :=
  ⟨List.Perm.refl _, List.Perm.refl _⟩

theorem MEquiv.symm {m₁ m₂ : GraphModel} (h : MEquiv m₁ m₂) : MEquiv m₂ m₁ :=
  ⟨h.1.symm, h.2.symm⟩

theorem MEquiv.trans {m₁ m₂ m₃ : GraphModel} (h₁ : MEquiv m₁ m₂) (h₂ : MEquiv m₂ m₃) :
    MEquiv m₁ m₃ :=
  ⟨h₁.1.trans h₂.1, h₁.2.trans h₂.2⟩

/-! ## Binding converters (from the template definitions in `loadExample`)

Each converter is the Lean transcription of the corresponding arrow
function in `src/app/app.ts`.  They are total functions, so evaluating
one on a missing (`none`) field cannot throw. -/

/-- `'bindings'` template, app.ts line 127:
`(status) => status === 'active' ? 'lightgreen' : 'lightcoral'`. -/
def statusFillBindings (status : Option String) : String :=
  if status == some "active" then "lightgreen" else "lightcoral"

/-- `'bindings'` template, app.ts line 135:
`(s) => s?.toUpperCase() || 'N/A'` (JavaScript `||` replaces the falsy
values `undefined` and `""` by `"N/A"`). -/
def statusTextBindings (s : Option String) : String :=
  match s with
  | some v => if v.toUpper == "" then "N/A" else v.toUpper
  | none => "N/A"

/-- `'panels-vertical'` template, app.ts line 219:
`(s) => s === 'active' ? 'green' : 'gray'`. -/
def statusDotFillVertical (s : Option String) : String :=
  if s == some "active" then "green" else "gray"

/-- `'composition'` template, app.ts line 244:
`(role) => role === 'manager' ? '#FFF4E6' : 'white'`. -/
def roleFillComposition (role : Option String) : String :=
  if role == some "manager" then "#FFF4E6" else "white"

/-- `'composition'` template, app.ts line 267:
`(r) => r === 'manager'`. -/
def roleVisibleComposition (r : Option String) : Bool :=
  r == some "manager"

/-- `'composition'` template, app.ts line 277:
`(s) => s === 'active' ? '#D1FAE5' : '#FEE2E2'`. -/
def statusBadgeFillComposition (s : Option String) : String :=
  if s == some "active" then "#D1FAE5" else "#FEE2E2"

/-- `'composition'` template, app.ts line 284:
`(s) => s?.toUpperCase()` (yields `undefined` on a missing field). -/
def statusTextComposition (s : Option String) : Option String :=
  s.map (·.toUpper)

/-- Tag naming one of the converter functions above, so that binding
declarations inside templates can reference it as a value. -/
inductive ConvTag where
  | statusFillBindingsTag
  | statusTextBindingsTag
  | statusDotFillVerticalTag
  | roleFillCompositionTag
  | roleVisibleCompositionTag
  | statusBadgeFillCompositionTag
  | statusTextCompositionTag
deriving DecidableEq, Repr

/-- A `.bind(targetProperty, sourceField, converter?)` declaration
(spec §3 Binding). -/
structure BindingSpec where
  targetProp : String
  sourceField : String
  conv : Option ConvTag := none
deriving DecidableEq, Repr

/-- A property value appearing in a template's builder configuration. -/
inductive PropVal where
  | str (v : String)
  | num (v : Int)
  | marginV (top right bottom left : Int)
  | spotV (name : String)
  | nullVal
deriving DecidableEq, Repr

/-- A visual object inside a node template: `go.Shape`, `go.TextBlock`
or `go.Panel` with its configured properties, bindings and (for panels)
children (spec §3 VisualObject). -/
inductive VObj where
  | shape (figure : String) (props : List (String × PropVal)) (bindings : List BindingSpec)
  | textBlock (props : List (String × PropVal)) (bindings : List BindingSpec)
  | panel (ptype : String) (props : List (String × PropVal)) (bindings : List BindingSpec)
      (children : List VObj)
deriving Repr

/-- A node template: a `go.Node` with its panel type, attached event
handlers (by name) and children. -/
structure NodeTemplate where
  ptype : String
  handlers : List String := []
  children : List VObj
deriving Repr

/-- `createBasicNodeTemplate` (app.ts lines 329–344). -/
def createBasicNodeTemplate : NodeTemplate :=
  { ptype := "Auto"
    children :=
      [ .shape "RoundedRectangle"
          [("fill", .str "white"), ("stroke", .str "#028090"), ("strokeWidth", .num 2)] []
      , .textBlock [("margin", .num 10), ("font", .str "14pt sans-serif")]
          [{ targetProp := "text", sourceField := "name" }] ] }

/-- `'graphobject-basics'` template (app.ts lines 100–113). -/
def templateGraphobjectBasics : NodeTemplate :=
  { ptype := "Auto"
    children :=
      [ .shape "RoundedRectangle"
          [("fill", .str "lightblue"), ("stroke", .str "black"), ("strokeWidth", .num 2)] []
      , .textBlock [("margin", .num 12), ("font", .str "bold 14pt sans-serif")]
          [{ targetProp := "text", sourceField := "name" }] ] }

/-- `'bindings'` template (app.ts lines 119–137). -/
def templateBindings : NodeTemplate :=
  { ptype := "Auto"
    children :=
      [ .shape "RoundedRectangle"
          [("stroke", .str "black"), ("strokeWidth", .num 2)]
          [{ targetProp := "fill", sourceField := "status",
             conv := some .statusFillBindingsTag }]
      , .panel "Vertical" [("margin", .num 8)] []
          [ .textBlock [("font", .str "bold 14pt sans-serif")]
              [{ targetProp := "text", sourceField := "name" }]
          , .textBlock [("font", .str "10pt sans-serif")]
              [{ targetProp := "text", sourceField := "status",
                 conv := some .statusTextBindingsTag }] ] ] }

/-- `'panels-auto'` template (app.ts lines 142–155). -/
def templatePanelsAuto : NodeTemplate :=
  { ptype := "Auto"
    children :=
      [ .shape "RoundedRectangle"
          [("fill", .str "white"), ("stroke", .str "#028090"), ("strokeWidth", .num 3)] []
      , .textBlock [("margin", .num 16), ("font", .str "14pt sans-serif")]
          [{ targetProp := "text", sourceField := "name" }] ] }

/-- `'panels-spot'` template (app.ts lines 161–191). -/
def templatePanelsSpot : NodeTemplate :=
  { ptype := "Spot"
    children :=
      [ .shape "Circle"
          [("width", .num 60), ("height", .num 60), ("fill", .str "#028090"),
           ("stroke", .nullVal)] []
      , .textBlock [("stroke", .str "white"), ("font", .str "bold 12pt sans-serif")]
          [{ targetProp := "text", sourceField := "name" }]
      , .shape "Circle"
          [("alignment", .spotV "TopRight"), ("alignmentFocus", .spotV "Center"),
           ("width", .num 20), ("height", .num 20), ("fill", .str "red"),
           ("stroke", .str "white"), ("strokeWidth", .num 2)] []
      , .textBlock
          [("text", .str "!"), ("alignment", .spotV "TopRight"),
           ("alignmentFocus", .spotV "Center"), ("stroke", .str "white"),
           ("font", .str "bold 10pt sans-serif")] [] ] }

/-- `'panels-vertical'` template (app.ts lines 197–231). -/
def templatePanelsVertical : NodeTemplate :=
  { ptype := "Auto"
    children :=
      [ .shape "RoundedRectangle"
          [("fill", .str "white"), ("stroke", .str "#028090"), ("strokeWidth", .num 2)] []
      , .panel "Vertical" [("margin", .num 8)] []
          [ .textBlock
              [("font", .str "bold 14pt sans-serif"), ("margin", .marginV 0 0 4 0)]
              [{ targetProp := "text", sourceField := "name" }]
          , .panel "Horizontal" [("defaultAlignment", .spotV "Left")] []
              [ .shape "Circle"
                  [("width", .num 12), ("height", .num 12), ("margin", .marginV 0 4 0 0)]
                  [{ targetProp := "fill", sourceField := "status",
                     conv := some .statusDotFillVerticalTag }]
              , .textBlock [("font", .str "10pt sans-serif")]
                  [{ targetProp := "text", sourceField := "status" }] ]
          , .textBlock [("font", .str "italic 10pt sans-serif"), ("stroke", .str "gray")]
              [{ targetProp := "text", sourceField := "role" }] ] ] }

/-- `'composition'` template (app.ts lines 237–287). -/
def templateComposition : NodeTemplate :=
  { ptype := "Auto"
    children :=
      [ .shape "RoundedRectangle"
          [("fill", .str "white"), ("stroke", .nullVal)]
          [{ targetProp := "fill", sourceField := "role",
             conv := some .roleFillCompositionTag }]
      , .panel "Vertical" [("margin", .num 12)] []
          [ .panel "Horizontal"
              [("background", .str "#028090"), ("margin", .marginV 0 0 8 0)] []
              [ .textBlock
                  [("font", .str "bold 14pt sans-serif"), ("stroke", .str "white"),
                   ("margin", .num 6)]
                  [{ targetProp := "text", sourceField := "name" }]
              , .shape "Circle"
                  [("width", .num 8), ("height", .num 8), ("fill", .str "white"),
                   ("margin", .marginV 0 6 0 0)]
                  [{ targetProp := "visible", sourceField := "role",
                     conv := some .roleVisibleCompositionTag }] ]
          , .panel "Horizontal" [] []
              [ .shape "RoundedRectangle"
                  [("width", .num 60), ("height", .num 20), ("margin", .marginV 0 4 0 0)]
                  [{ targetProp := "fill", sourceField := "status",
                     conv := some .statusBadgeFillCompositionTag }]
              , .textBlock
                  [("font", .str "10pt sans-serif"), ("margin", .marginV 0 0 0 (-56))]
                  [{ targetProp := "text", sourceField := "status",
                     conv := some .statusTextCompositionTag }] ] ] ] }

/-- `'events'` template (app.ts lines 293–323): carries `click`,
`mouseEnter` and `mouseLeave` handlers attached at template-definition
time. -/
def templateEvents : NodeTemplate :=
  { ptype := "Auto"
    handlers := ["click", "mouseEnter", "mouseLeave"]
    children :=
      [ .shape "RoundedRectangle"
          [("name", .str "SHAPE"), ("fill", .str "lightblue"), ("stroke", .str "black"),
           ("strokeWidth", .num 2), ("cursor", .str "pointer")] []
      , .textBlock [("margin", .num 12), ("font", .str "14pt sans-serif")]
          [{ targetProp := "text", sourceField := "name" }] ] }

/-- One entry of the `examples` catalog (app.ts lines 44–53). -/
structure Example where
  id : String
  name : String
deriving DecidableEq, Repr

/-- The `examples` catalog (app.ts lines 44–53). -/
def examples : List Example :=
  [ { id := "mental-model", name := "Mental Model: Diagram → Model → Parts" }
  , { id := "graphobject-basics", name := "GraphObject Basics" }
  , { id := "bindings", name := "Bindings (null-safe)" }
  , { id := "panels-auto", name := "Panel: Auto" }
  , { id := "panels-spot", name := "Panel: Spot" }
  , { id := "panels-vertical", name := "Panel: Vertical/Horizontal" }
  , { id := "composition", name := "Composition Pattern" }
  , { id := "events", name := "Events & Interactions" } ]

/-! ## Diagram and component state

The diagram instance owns the model, the undo/redo history (spec §4.4),
the selection (spec §3 SelectionState) and the active node template.
Modelled from the spec where GoJS internals are concerned: a committed
transaction is stored as its list of applied edits, newest first on the
undo stack; the selection holds at most one part, identified by key for
nodes (a GoJS `Part` exposes its model record). -/

/-- A selectable part: a Node (identified by its record's key) or a Link. -/
inductive DiagPart where
  | node (k : Key)
  | link (l : LinkData)
deriving DecidableEq, Repr

/-- The diagram instance state. -/
structure DiagramState where
  model : GraphModel
  undoStack : List (List Edit) := []
  redoStack : List (List Edit) := []
  selection : Option DiagPart := none
  nodeTemplate : NodeTemplate
  linkTemplateStrokeWidth : Int := 2

/-- The Angular component state: the diagram plus the `currentExample`
signal (app.ts line 28). -/
structure AppState where
  diagram : DiagramState
  currentExample : String

/-- `currentExampleName` (app.ts lines 55–57):
`examples.find(e => e.id === this.currentExample())?.name`. -/
def currentExampleName (s : AppState) : Option String :=
  (examples.find? (fun e => e.id == s.currentExample)).map (·.name)

/-- Modelled from the spec (§4.3, §4.4): run the mutating operation whose
reversible edit descriptors are `es` as one committed transaction.  On
success the transaction is pushed onto the undo stack and the redo stack
is cleared; a structural violation fails fast, leaving all state
unchanged. -/
def commitOn (s : AppState) (es : List Edit) : AppState :=
  match applyEdits s.diagram.model es with
  | some m' =>
      { s with diagram :=
          { s.diagram with
              model := m'
              undoStack := es :: s.diagram.undoStack
              redoStack := [] } }
  | none => s

/-- The fresh key computed by `addNode` (app.ts line 355):
`Math.max(...this.nodeDataArray.map(n => n.key)) + 1`. -/
def newNodeKey (m : GraphModel) : Key :=
  ((m.nodeDataArray.map (·.key)).foldr Key.max Key.negInf).add1

/-- `addNode` (app.ts lines 354–362): compute the next key and add
`{ key, name: `Person ${key}`, status: 'active', role: 'employee' }`
through `model.addNodeData`. -/
def addNode (s : AppState) : AppState :=
  let newKey := newNodeKey s.diagram.model
  commitOn s [Edit.addNode
    { key := newKey
      name := "Person " ++ newKey.render
      status := some "active"
      role := some "employee" }]

/-- `removeSelectedNode` (app.ts lines 364–369): if the primary selection
is a Node, call `model.removeNodeData(selectedNode.data)`, which removes
the node record and cascades removal of every link referencing it
(spec §4.3); otherwise do nothing.  The removed part leaves the
selection. -/
def removeSelectedNode (s : AppState) : AppState :=
  match s.diagram.selection with
  | some (.node k) =>
      match s.diagram.model.findNode k with
      | some r =>
          let es :=
            (s.diagram.model.linkDataArray.filter
              (fun l => l.«from» == r.key || l.«to» == r.key)).map Edit.removeLink
            ++ [Edit.removeNode r]
          let s' := commitOn s es
          { s' with diagram := { s'.diagram with selection := none } }
      | none => s
  | _ => s

/-- `toggleStatus` (app.ts lines 371–381): if the primary selection is a
Node, call `model.setDataProperty(data, 'status',
data.status === 'active' ? 'inactive' : 'active')`; otherwise do
nothing. -/
def toggleStatus (s : AppState) : AppState :=
  match s.diagram.selection with
  | some (.node k) =>
      match s.diagram.model.findNode k with
      | some r =>
          let newStatus : String := if r.status == some "active" then "inactive" else "active"
          commitOn s [Edit.setProperty k r.status (some newStatus)]
      | none => s
  | _ => s

/-- `updateModel` (app.ts lines 346–351):
`this.diagram.model = new go.GraphLinksModel(this.nodeDataArray,
this.linkDataArray)`.  GoJS's `GraphLinksModel` holds the arrays it is
given by reference and `addNodeData`/`removeNodeData` mutate them in
place, so the component's arrays and the model's arrays are one; the
rebuild therefore keeps the current record data ("a full rebuild from
the current GraphModel", spec §6) while the fresh model starts with an
empty undo history and, per spec §3, the selection is cleared on model
reset. -/
def updateModel (s : AppState) : AppState :=
  { s with diagram :=
      { s.diagram with undoStack := [], redoStack := [], selection := none } }

/-- `loadExample` (app.ts lines 91–327): switch over the example id; each
known case installs its node template and calls `updateModel()`; an
unknown id matches no case and does nothing. -/
def loadExample (s : AppState) (exampleId : String) : AppState :=
  match exampleId with
  | "mental-model" =>
      updateModel { s with diagram := { s.diagram with nodeTemplate := createBasicNodeTemplate } }
  | "graphobject-basics" =>
      updateModel { s with diagram := { s.diagram with nodeTemplate := templateGraphobjectBasics } }
  | "bindings" =>
      updateModel { s with diagram := { s.diagram with nodeTemplate := templateBindings } }
  | "panels-auto" =>
      updateModel { s with diagram := { s.diagram with nodeTemplate := templatePanelsAuto } }
  | "panels-spot" =>
      updateModel { s with diagram := { s.diagram with nodeTemplate := templatePanelsSpot } }
  | "panels-vertical" =>
      updateModel { s with diagram := { s.diagram with nodeTemplate := templatePanelsVertical } }
  | "composition" =>
      updateModel { s with diagram := { s.diagram with nodeTemplate := templateComposition } }
  | "events" =>
      updateModel { s with diagram := { s.diagram with nodeTemplate := templateEvents } }
  | _ => s

/-- `selectExample` (app.ts lines 86–89): set the `currentExample` signal,
then `loadExample`. -/
def selectExample (s : AppState) (exampleId : String) : AppState :=
  loadExample { s with currentExample := exampleId } exampleId

/-- The node template installed by `loadExample` for each known example
id (`createBasicNodeTemplate` for `'mental-model'`). -/
def templateForExample : String → Option NodeTemplate
  | "mental-model" => some createBasicNodeTemplate
  | "graphobject-basics" => some templateGraphobjectBasics
  | "bindings" => some templateBindings
  | "panels-auto" => some templatePanelsAuto
  | "panels-spot" => some templatePanelsSpot
  | "panels-vertical" => some templatePanelsVertical
  | "composition" => some templateComposition
  | "events" => some templateEvents
  | _ => none

/-- Modelled from the spec (§4.4): `undo()` pops the most recent committed
transaction, applies its inverse edits in reverse order, and pushes it
onto the redo stack; no-op when the undo stack is empty
(`NothingToUndo`). -/
def undo (s : AppState) : AppState :=
  match s.diagram.undoStack with
  | [] => s
  | t :: rest =>
      match applyEdits s.diagram.model (t.reverse.map Edit.inverse) with
      | some m' =>
          { s with diagram :=
              { s.diagram with
                  model := m'
                  undoStack := rest
                  redoStack := t :: s.diagram.redoStack } }
      | none => s

/-- Modelled from the spec (§4.4): `redo()` is the mirror of `undo()`:
it pops the redo stack, re-applies the transaction's edits in order and
pushes it back onto the undo stack; no-op when empty (`NothingToRedo`). -/
def redo (s : AppState) : AppState :=
  match s.diagram.redoStack with
  | [] => s
  | t :: rest =>
      match applyEdits s.diagram.model t with
      | some m' =>
          { s with diagram :=
              { s.diagram with
                  model := m'
                  undoStack := t :: s.diagram.undoStack
                  redoStack := rest } }
      | none => s

/-- The sample node records (app.ts lines 33–37). -/
def initialNodeDataArray : List NodeData :=
  [ { key := .int 1, name := "Alice", status := some "active", role := some "manager" }
  , { key := .int 2, name := "Bob", status := some "active", role := some "employee" }
  , { key := .int 3, name := "Charlie", status := some "inactive", role := some "employee" } ]

/-- The sample link records (app.ts lines 39–42). -/
def initialLinkDataArray : List LinkData :=
  [ { «from» := .int 1, «to» := .int 2 }, { «from» := .int 1, «to» := .int 3 } ]

/-- The component state after `ngAfterViewInit` (app.ts lines 59–62):
`initDiagram()` followed by `loadExample('mental-model')`, with the
`currentExample` signal at its initial value (line 28). -/
def initialAppState : AppState :=
  { currentExample := "mental-model"
    diagram :=
      { model := { nodeDataArray := initialNodeDataArray
                   linkDataArray := initialLinkDataArray }
        undoStack := []
        redoStack := []
        selection := none
        nodeTemplate := createBasicNodeTemplate } }

/-- One user-driven operation on the running component: a toolbar call,
selecting a part (or clearing the selection) in the diagram, switching
the example, or an undo/redo keystroke. -/
inductive UserStep where
  | addNode
  | removeSelectedNode
  | toggleStatus
  | select (p : Option DiagPart)
  | selectExample (id : String)
  | undo
  | redo
deriving Repr

/-- Apply one user step. -/
def step (s : AppState) : UserStep → AppState
  | .addNode => addNode s
  | .removeSelectedNode => removeSelectedNode s
  | .toggleStatus => toggleStatus s
  | .select p => { s with diagram := { s.diagram with selection := p } }
  | .selectExample id => selectExample s id
  | .undo => undo s
  | .redo => redo s

/-- Run a sequence of user steps. -/
def runSteps (s : AppState) (l : List UserStep) : AppState :=
  l.foldl step s

/-! ## Basic lemmas about the edit semantics -/

theorem updStatus_key (k : Key) (v : Option String) (n : NodeData) :
    (updStatus k v n).key = n.key := by
  unfold updStatus; split <;> rfl

theorem perm_any {α : Type} {l₁ l₂ : List α} (h : l₁.Perm l₂) (p : α → Bool) :
    l₁.any p = l₂.any p := by
  rw [Bool.eq_iff_iff]
  simp only [List.any_eq_true]
  constructor
  · rintro ⟨x, hx, hp⟩; exact ⟨x, h.mem_iff.mp hx, hp⟩
  · rintro ⟨x, hx, hp⟩; exact ⟨x, h.mem_iff.mpr hx, hp⟩

theorem contains_true_iff {α : Type} [DecidableEq α] {l : List α} {a : α} :
    l.contains a = true ↔ a ∈ l := by
  simp [List.contains]

theorem perm_contains {α : Type} [DecidableEq α] {l₁ l₂ : List α} (h : l₁.Perm l₂) (a : α) :
    l₁.contains a = l₂.contains a := by
  rw [Bool.eq_iff_iff, contains_true_iff, contains_true_iff]
  exact h.mem_iff

/-- Every successful edit preserves key uniqueness: additions are guarded
by a duplicate-key check, removals and property updates cannot introduce
keys. -/
theorem applyEdit_nodupKeys {m m' : GraphModel} {e : Edit}
    (h : applyEdit m e = some m') (hn : m.NodupKeys) : m'.NodupKeys := by
  unfold GraphModel.NodupKeys at *
  cases e with
  | addNode r =>
      simp only [applyEdit] at h
      split at h
      · exact absurd h (by simp)
      · rename_i hguard
        cases h
        simp only [List.map_append, List.map_cons, List.map_nil]
        rw [List.nodup_append]
        refine ⟨hn, List.nodup_singleton _, ?_⟩
        intro k hk hk'
        simp only [List.mem_singleton] at hk'
        subst hk'
        simp only [List.mem_map] at hk
        obtain ⟨n, hnmem, hkey⟩ := hk
        exact hguard (List.any_eq_true.mpr ⟨n, hnmem, by simp [hkey]⟩)
  | removeNode r =>
      simp only [applyEdit] at h
      split at h
      · cases h
        exact ((List.filter_sublist _).map _).nodup hn
      · exact absurd h (by simp)
  | addLink l =>
      simp only [applyEdit] at h
      cases h
      exact hn
  | removeLink l =>
      simp only [applyEdit] at h
      split at h
      · cases h; exact hn
      · exact absurd h (by simp)
  | setProperty k old new =>
      simp only [applyEdit] at h
      split at h
      · cases h
        have : ((m.nodeDataArray.map (updStatus k new)).map (·.key))
            = m.nodeDataArray.map (·.key) := by
          rw [List.map_map]
          exact List.map_congr_left (fun n _ => updStatus_key k new n)
        rw [this]
        exact hn
      · exact absurd h (by simp)

theorem applyEdits_nodupKeys {m m' : GraphModel} {es : List Edit}
    (h : applyEdits m es = some m') (hn : m.NodupKeys) : m'.NodupKeys := by
  induction es generalizing m with
  | nil => simp only [applyEdits] at h; cases h; exact hn
  | cons e es ih =>
      simp only [applyEdits] at h
      split at h
      · rename_i m₁ h₁
        exact ih h (applyEdit_nodupKeys h₁ hn)
      · exact absurd h (by simp)

theorem applyEdits_append (m : GraphModel) (es₁ es₂ : List Edit) :
    applyEdits m (es₁ ++ es₂)
      = match applyEdits m es₁ with
        | some m' => applyEdits m' es₂
        | none => none := by
  induction es₁ generalizing m with
  | nil => simp [applyEdits]
  | cons e es ih =>
      simp only [List.cons_append, applyEdits]
      cases applyEdit m e with
      | some m₁ => simpa using ih m₁
      | none => rfl

/-! ## Permutation congruence of the edit semantics

Applying an edit respects the record multisets: models that agree up to
permutation succeed or fail together, with results again agreeing up to
permutation. -/

theorem applyEdit_perm {m₁ m₂ m₁' : GraphModel} {e : Edit} (hp : MEquiv m₁ m₂)
    (h : applyEdit m₁ e = some m₁') :
    ∃ m₂', applyEdit m₂ e = some m₂' ∧ MEquiv m₁' m₂' := by
  cases e with
  | addNode r =>
      simp only [applyEdit] at h ⊢
      rw [perm_any hp.1 (fun n => n.key == r.key)] at h
      split at h
      · exact absurd h (by simp)
      · rename_i hguard
        cases h
        rw [if_neg hguard]
        exact ⟨_, rfl, ⟨hp.1.append_right [r], hp.2⟩⟩
  | removeNode r =>
      simp only [applyEdit] at h ⊢
      rw [perm_contains hp.1 r] at h
      split at h
      · rename_i hguard
        cases h
        rw [if_pos hguard]
        exact ⟨_, rfl, ⟨hp.1.filter _, hp.2⟩⟩
      · exact absurd h (by simp)
  | addLink l =>
      simp only [applyEdit] at h ⊢
      cases h
      exact ⟨_, rfl, ⟨hp.1, hp.2.append_right [l]⟩⟩
  | removeLink l =>
      simp only [applyEdit] at h ⊢
      rw [perm_contains hp.2 l] at h
      split at h
      · rename_i hguard
        cases h
        rw [if_pos hguard]
        exact ⟨_, rfl, ⟨hp.1, hp.2.erase l⟩⟩
      · exact absurd h (by simp)
  | setProperty k old new =>
      simp only [applyEdit] at h ⊢
      rw [perm_any hp.1 (fun n => n.key == k && n.status == old)] at h
      split at h
      · rename_i hguard
        cases h
        rw [if_pos hguard]
        exact ⟨_, rfl, ⟨hp.1.map _, hp.2⟩⟩
      · exact absurd h (by simp)

theorem applyEdits_perm {m₁ m₂ m₁' : GraphModel} {es : List Edit} (hp : MEquiv m₁ m₂)
    (h : applyEdits m₁ es = some m₁') :
    ∃ m₂', applyEdits m₂ es = some m₂' ∧ MEquiv m₁' m₂' := by
  induction es generalizing m₁ m₂ with
  | nil =>
      simp only [applyEdits] at h
      cases h
      exact ⟨m₂, rfl, hp⟩
  | cons e es ih =>
      simp only [applyEdits] at h ⊢
      split at h
      · rename_i mid₁ h₁
        obtain ⟨mid₂, h₂, hmid⟩ := applyEdit_perm hp h₁
        rw [h₂]
        exact ih hmid h
      · exact absurd h (by simp)

/-- With pairwise-distinct keys, a record's key determines the record. -/
theorem key_unique {nodes : List NodeData} (hn : (nodes.map (·.key)).Nodup)
    {x y : NodeData} (hx : x ∈ nodes) (hy : y ∈ nodes) (h : x.key = y.key) : x = y :=
  List.inj_on_of_nodup_map hn hx hy h

/-- With pairwise-distinct keys, filtering out `r.key` removes exactly the
occurrence of `r`. -/
theorem filter_ne_key_eq_erase {nodes : List NodeData}
    (hn : (nodes.map (·.key)).Nodup) {r : NodeData} (hr : r ∈ nodes) :
    nodes.filter (fun n => !(n.key == r.key)) = nodes.erase r := by
  induction nodes with
  | nil => cases hr
  | cons a t ih =>
      simp only [List.map_cons, List.nodup_cons] at hn
      by_cases har : a = r
      · subst har
        rw [List.erase_cons_head]
        have hpred : (fun n => !(n.key == a.key)) a = false := by simp
        rw [List.filter_cons_of_neg (by simp [hpred])]
        apply List.filter_eq_self.mpr
        intro n hnmem
        simp only [Bool.not_eq_true', beq_eq_false_iff_ne, ne_eq]
        intro hkey
        exact hn.1 (List.mem_map.mpr ⟨n, hnmem, hkey⟩)
      · have hrt : r ∈ t := by
          cases List.mem_cons.mp hr with
          | inl h => exact absurd h.symm har
          | inr h => exact h
        have hak : ¬(a.key = r.key) := by
          intro hkey
          exact hn.1 (List.mem_map.mpr ⟨r, hrt, hkey.symm⟩)
        rw [List.filter_cons_of_pos (by simp [hak]),
            List.erase_cons_tail (by simp [har]), ih hn.2 hrt]

/-- Erasing a value appended at the end leaves the list up to
permutation (the appended copy is removed if the value was absent; some
one copy is removed otherwise). -/
theorem append_singleton_erase {α : Type} [DecidableEq α] (l : List α) (a : α) :
    ((l ++ [a]).erase a).Perm l := by
  by_cases h : a ∈ l
  · rw [List.erase_append_left _ h]
    exact (List.perm_append_singleton _ _).trans (List.perm_cons_erase h).symm
  · rw [List.erase_append_right _ h, List.erase_cons_head, List.append_nil]


/-- Modelled from the spec (§4.4): a successful edit is undone by its
inverse.  Applying the inverse succeeds and restores the node and link
record multisets, provided keys were unique beforehand. -/
theorem applyEdit_inverse {m m' : GraphModel} {e : Edit} (hn : m.NodupKeys)
    (h : applyEdit m e = some m') :
    ∃ m'', applyEdit m' e.inverse = some m'' ∧ MEquiv m'' m := by
  cases e with
  | addNode r =>
      simp only [applyEdit] at h
      split at h
      · exact absurd h (by simp)
      · rename_i hguard
        cases h
        have hc : ((m.nodeDataArray ++ [r]).contains r) = true :=
          contains_true_iff.mpr (List.mem_append_right _ (List.mem_singleton.mpr rfl))
        refine ⟨⟨(m.nodeDataArray ++ [r]).filter (fun n => !(n.key == r.key)),
                 m.linkDataArray⟩, ?_, ?_, List.Perm.refl _⟩
        · simp only [Edit.inverse, applyEdit]
          rw [if_pos hc]
        · show ((m.nodeDataArray ++ [r]).filter fun n => !(n.key == r.key)).Perm
            m.nodeDataArray
          rw [List.filter_append]
          have h1 : m.nodeDataArray.filter (fun n => !(n.key == r.key)) = m.nodeDataArray := by
            apply List.filter_eq_self.mpr
            intro n hnmem
            simp only [Bool.not_eq_true', beq_eq_false_iff_ne, ne_eq]
            intro hkey
            exact hguard (List.any_eq_true.mpr ⟨n, hnmem, by simp [hkey]⟩)
          have h2 : [r].filter (fun n => !(n.key == r.key)) = ([] : List NodeData) := by simp
          rw [h1, h2, List.append_nil]
  | removeNode r =>
      simp only [applyEdit] at h
      split at h
      · rename_i hguard
        cases h
        have hr : r ∈ m.nodeDataArray := contains_true_iff.mp hguard
        have hguard' : ¬((m.nodeDataArray.filter fun n => !(n.key == r.key)).any
            (fun n => n.key == r.key) = true) := by
          intro hany
          obtain ⟨n, hnmem, hkey⟩ := List.any_eq_true.mp hany
          have := List.of_mem_filter hnmem
          simp only [Bool.not_eq_true', beq_eq_false_iff_ne, ne_eq] at this
          exact this (by simpa using hkey)
        refine ⟨⟨(m.nodeDataArray.filter fun n => !(n.key == r.key)) ++ [r],
                 m.linkDataArray⟩, ?_, ?_, List.Perm.refl _⟩
        · simp only [Edit.inverse, applyEdit]
          rw [if_neg hguard']
        · show ((m.nodeDataArray.filter fun n => !(n.key == r.key)) ++ [r]).Perm
            m.nodeDataArray
          rw [filter_ne_key_eq_erase hn hr]
          exact (List.perm_append_singleton _ _).trans (List.perm_cons_erase hr).symm
      · exact absurd h (by simp)
  | addLink l =>
      simp only [applyEdit] at h
      cases h
      have hc : ((m.linkDataArray ++ [l]).contains l) = true :=
        contains_true_iff.mpr (List.mem_append_right _ (List.mem_singleton.mpr rfl))
      refine ⟨⟨m.nodeDataArray, (m.linkDataArray ++ [l]).erase l⟩, ?_,
        List.Perm.refl _, append_singleton_erase _ _⟩
      simp only [Edit.inverse, applyEdit]
      rw [if_pos hc]
  | removeLink l =>
      simp only [applyEdit] at h
      split at h
      · rename_i hguard
        cases h
        have hl : l ∈ m.linkDataArray := contains_true_iff.mp hguard
        refine ⟨⟨m.nodeDataArray, m.linkDataArray.erase l ++ [l]⟩, rfl,
          List.Perm.refl _, ?_⟩
        exact (List.perm_append_singleton _ _).trans (List.perm_cons_erase hl).symm
      · exact absurd h (by simp)
  | setProperty k old new =>
      simp only [applyEdit] at h
      split at h
      · rename_i hguard
        cases h
        obtain ⟨x, hxmem, hx⟩ := List.any_eq_true.mp hguard
        simp only [Bool.and_eq_true, beq_iff_eq] at hx
        obtain ⟨hxk, hxs⟩ := hx
        have hc : ((m.nodeDataArray.map (updStatus k new)).any
            (fun n => n.key == k && n.status == new)) = true := by
          apply List.any_eq_true.mpr
          refine ⟨updStatus k new x, List.mem_map.mpr ⟨x, hxmem, rfl⟩, ?_⟩
          simp [updStatus, hxk]
        have hrestore : (m.nodeDataArray.map (updStatus k new)).map (updStatus k old)
            = m.nodeDataArray := by
          rw [List.map_map]
          refine (List.map_congr_left ?_).trans (List.map_id _)
          intro y hy
          simp only [Function.comp_apply, id]
          by_cases hyk : y.key = k
          · have hxy : y = x := key_unique hn hy hxmem (by rw [hyk, hxk])
            subst hxy
            have hold : old = y.status := hxs.symm
            have e1 : updStatus k new y = { y with status := new } := by
              simp [updStatus, hyk]
            have e2 : updStatus k old { y with status := new } = { y with status := old } := by
              simp [updStatus, hyk]
            rw [e1, e2, hold]
          · simp [updStatus, hyk]
        refine ⟨⟨(m.nodeDataArray.map (updStatus k new)).map (updStatus k old),
                 m.linkDataArray⟩, ?_, ?_, List.Perm.refl _⟩
        · simp only [Edit.inverse, applyEdit]
          rw [if_pos hc]
        · rw [hrestore]
      · exact absurd h (by simp)

/-- Modelled from the spec (§4.4): undoing a committed transaction —
applying the inverses of its edits in reverse order — succeeds and
restores the pre-transaction record multisets. -/
theorem applyEdits_reverse_inverse {m m' : GraphModel} {es : List Edit} (hn : m.NodupKeys)
    (h : applyEdits m es = some m') :
    ∃ m'', applyEdits m' (es.reverse.map Edit.inverse) = some m'' ∧ MEquiv m'' m := by
  induction es generalizing m with
  | nil =>
      simp only [applyEdits] at h
      cases h
      exact ⟨m', by simp [applyEdits], MEquiv.refl _⟩
  | cons e es ih =>
      simp only [applyEdits] at h
      split at h
      · rename_i m₁ h₁
        obtain ⟨m₁'', hm₁'', hp₁⟩ := ih (applyEdit_nodupKeys h₁ hn) h
        obtain ⟨m₂'', hm₂'', hp₂⟩ := applyEdit_inverse hn h₁
        obtain ⟨z, hz, hpz⟩ := applyEdit_perm hp₁.symm hm₂''
        refine ⟨z, ?_, (hpz.symm).trans hp₂⟩
        rw [List.reverse_cons, List.map_append, applyEdits_append, hm₁'']
        simp [applyEdits, hz]
      · exact absurd h (by simp)

/-! ## Cascade removal: erasing the matching links one by one equals
filtering them out -/

/-- Erase the values `vs` from `ls` one at a time, failing if one is
absent; mirrors a run of `removeLink` edits on the link array. -/
def eraseSeq {α : Type} [DecidableEq α] : List α → List α → Option (List α)
  | ls, [] => some ls
  | ls, v :: vs => if ls.contains v then eraseSeq (ls.erase v) vs else none

theorem applyEdits_map_removeLink (m : GraphModel) (vs : List LinkData) :
    applyEdits m (vs.map Edit.removeLink)
      = (eraseSeq m.linkDataArray vs).map (fun ls => { m with linkDataArray := ls }) := by
  induction vs generalizing m with
  | nil => rfl
  | cons v vs ih =>
      simp only [List.map_cons, applyEdits, applyEdit, eraseSeq]
      by_cases hc : m.linkDataArray.contains v = true
      · rw [if_pos hc, if_pos hc]
        exact ih { m with linkDataArray := m.linkDataArray.erase v }
      · rw [if_neg hc, if_neg hc]
        rfl

theorem eraseSeq_all_of_pred {α : Type} [DecidableEq α] {p : α → Bool} {a : α}
    (ha : p a = false) :
    ∀ (vs : List α) (ls : List α), (∀ v ∈ vs, p v = true) →
      eraseSeq (a :: ls) vs = (eraseSeq ls vs).map (a :: ·) := by
  intro vs
  induction vs with
  | nil => intro ls _; rfl
  | cons v vs ih =>
      intro ls hall
      have hva : ¬(v = a) := by
        intro hva
        have hpv := hall v (List.mem_cons_self v vs)
        rw [hva, ha] at hpv
        exact Bool.noConfusion hpv
      simp only [eraseSeq]
      have hmem : ((a :: ls).contains v) = ls.contains v := by
        rw [Bool.eq_iff_iff, contains_true_iff, contains_true_iff]
        constructor
        · intro h
          cases List.mem_cons.mp h with
          | inl h' => exact absurd h' hva
          | inr h' => exact h'
        · exact fun h => List.mem_cons_of_mem a h
      rw [hmem]
      by_cases hc : ls.contains v = true
      · rw [if_pos hc, if_pos hc,
            List.erase_cons_tail (by simp only [beq_iff_eq]; exact fun h => hva h.symm)]
        exact ih (ls.erase v) (fun w hw => hall w (List.mem_cons_of_mem v hw))
      · rw [if_neg hc, if_neg hc]
        rfl

theorem eraseSeq_filter {α : Type} [DecidableEq α] (p : α → Bool) (ls : List α) :
    eraseSeq ls (ls.filter p) = some (ls.filter (fun x => !(p x))) := by
  induction ls with
  | nil => rfl
  | cons a t ih =>
      by_cases ha : p a = true
      · rw [List.filter_cons_of_pos ha]
        simp only [eraseSeq]
        rw [if_pos (contains_true_iff.mpr (List.mem_cons_self a t)),
            List.erase_cons_head, ih,
            List.filter_cons_of_neg (by simp [ha])]
      · have ha' : p a = false := Bool.eq_false_iff.mpr ha
        rw [List.filter_cons_of_neg (by simp [ha']),
            eraseSeq_all_of_pred ha' (t.filter p) t
              (fun v hv => List.of_mem_filter hv),
            ih,
            List.filter_cons_of_pos (by simp [ha'])]
        rfl

/-! ## Freshness of `Math.max(...keys) + 1` over integer keys -/

/-- Ordering on JavaScript keys (`-Infinity` below every integer). -/
def Key.le : Key → Key → Prop
  | .negInf, _ => True
  | .int _, .negInf => False
  | .int a, .int b => a ≤ b

theorem Key.le_max_left (a b : Key) : a.le (Key.max a b) := by
  cases a <;> cases b <;> first
    | exact trivial
    | simp [Key.le, Key.max]

theorem Key.le_max_right (a b : Key) : b.le (Key.max a b) := by
  cases a <;> cases b <;> first
    | exact trivial
    | simp [Key.le, Key.max]

theorem Key.le_trans {a b c : Key} (h₁ : a.le b) (h₂ : b.le c) : a.le c := by
  cases a <;> cases b <;> cases c <;> first
    | exact trivial
    | (simp_all only [Key.le]; omega)
    | simp_all [Key.le]

theorem foldr_max_upper {ks : List Key} {k : Key} (h : k ∈ ks) :
    k.le (ks.foldr Key.max Key.negInf) := by
  induction ks with
  | nil => cases h
  | cons a t ih =>
      cases List.mem_cons.mp h with
      | inl h' => subst h'; exact Key.le_max_left _ _
      | inr h' =>
          exact Key.le_trans (ih h') (Key.le_max_right a _)

/-- Over finite (integer) keys, the key `addNode` computes —
`Math.max(...keys) + 1` — is fresh. -/
theorem newNodeKey_not_mem {m : GraphModel}
    (hfin : ∀ k ∈ m.nodeDataArray.map (·.key), k ≠ Key.negInf) :
    newNodeKey m ∉ m.nodeDataArray.map (·.key) := by
  intro hmem
  unfold newNodeKey at hmem
  cases hfold : (m.nodeDataArray.map (·.key)).foldr Key.max Key.negInf with
  | negInf =>
      rw [hfold] at hmem
      exact hfin _ hmem rfl
  | int M =>
      rw [hfold] at hmem
      have := foldr_max_upper hmem
      rw [hfold] at this
      simp only [Key.add1, Key.le] at this
      omega

/-! ## Transport of `findNode` across a status update -/

theorem find?_key_map_updStatus (nodes : List NodeData) (k k' : Key) (v : Option String) :
    (nodes.map (updStatus k' v)).find? (fun n => n.key == k)
      = (nodes.find? (fun n => n.key == k)).map (updStatus k' v) := by
  rw [List.find?_map]
  have : ((fun n => n.key == k) ∘ updStatus k' v) = (fun n : NodeData => n.key == k) := by
    funext n
    simp [Function.comp, updStatus_key]
  rw [this]

theorem findNode_key {m : GraphModel} {k : Key} {r : NodeData}
    (h : m.findNode k = some r) : r.key = k := by
  have := List.find?_some h
  simpa using this

theorem findNode_mem {m : GraphModel} {k : Key} {r : NodeData}
    (h : m.findNode k = some r) : r ∈ m.nodeDataArray :=
  List.mem_of_find?_eq_some h

/-- A `set-property` edit whose old value is read off the live record
always succeeds, mapping the status update over the node array. -/
theorem applyEdit_setProperty_of_findNode {m : GraphModel} {k : Key} {r : NodeData}
    (h : m.findNode k = some r) (v : Option String) :
    applyEdit m (.setProperty k r.status v)
      = some { m with nodeDataArray := m.nodeDataArray.map (updStatus k v) } := by
  simp only [applyEdit]
  rw [if_pos ?_]
  exact List.any_eq_true.mpr ⟨r, findNode_mem h, by simp [findNode_key h]⟩

/-! ## Key uniqueness is preserved by every user-visible operation -/

theorem commitOn_nodupKeys (s : AppState) (es : List Edit)
    (hn : s.diagram.model.NodupKeys) : (commitOn s es).diagram.model.NodupKeys := by
  unfold commitOn
  split
  · rename_i m' h
    exact applyEdits_nodupKeys h hn
  · exact hn

theorem step_nodupKeys (s : AppState) (u : UserStep)
    (hn : s.diagram.model.NodupKeys) : (step s u).diagram.model.NodupKeys := by
  cases u with
  | addNode => exact commitOn_nodupKeys _ _ hn
  | removeSelectedNode =>
      simp only [step, removeSelectedNode]
      split
      · split
        · exact commitOn_nodupKeys _ _ hn
        · exact hn
      · exact hn
  | toggleStatus =>
      simp only [step, toggleStatus]
      split
      · split
        · exact commitOn_nodupKeys _ _ hn
        · exact hn
      · exact hn
  | select p => exact hn
  | selectExample id =>
      simp only [step, selectExample, loadExample]
      split <;> exact hn
  | undo =>
      simp only [step, undo]
      split
      · exact hn
      · split
        · rename_i m' h
          exact applyEdits_nodupKeys h hn
        · exact hn
  | redo =>
      simp only [step, redo]
      split
      · exact hn
      · split
        · rename_i m' h
          exact applyEdits_nodupKeys h hn
        · exact hn

theorem runSteps_nodupKeys (s : AppState) (l : List UserStep)
    (hn : s.diagram.model.NodupKeys) : (runSteps s l).diagram.model.NodupKeys := by
  induction l generalizing s with
  | nil => exact hn
  | cons u l ih =>
      rw [runSteps, List.foldl_cons]
      exact ih (step s u) (step_nodupKeys s u hn)

/-! ## Claim theorems -/

/-- C8: every binding converter declared in the templates is a total
function, and on a missing (`undefined`) source field each returns its
own fallback value — `'lightcoral'`, `'N/A'`, `'gray'`, `'white'`,
`false`, `'#FEE2E2'` — or `undefined` (`none`), never throwing. -/
theorem converters_null_safe :
    statusFillBindings none = "lightcoral"
    ∧ statusTextBindings none = "N/A"
    ∧ statusDotFillVertical none = "gray"
    ∧ roleFillComposition none = "white"
    ∧ roleVisibleComposition none = false
    ∧ statusBadgeFillComposition none = "#FEE2E2"
    ∧ statusTextComposition none = none :=
  ⟨rfl, rfl, rfl, rfl, rfl, rfl, rfl⟩

theorem loadExample_currentExample (s : AppState) (id : String) :
    (loadExample s id).currentExample = s.currentExample := by
  unfold loadExample
  split <;> rfl

/-- C9: `selectExample(id)` sets the `currentExample` signal to `id` for
every string `id`, known or not; `currentExampleName` consequently is
the catalog lookup of `id` — the catalog name when `id` is a known
example and `undefined` (`none`) otherwise. -/
theorem selectExample_sets_currentExample (s : AppState) (id : String) :
    (selectExample s id).currentExample = id
    ∧ currentExampleName (selectExample s id)
        = (examples.find? (fun e => e.id == id)).map (·.name) := by
  have h1 : (selectExample s id).currentExample = id := by
    unfold selectExample
    rw [loadExample_currentExample]
  refine ⟨h1, ?_⟩
  unfold currentExampleName
  rw [h1]

/-- C4: when nothing is selected, or the selected part is a Link rather
than a Node, `removeSelectedNode()` and `toggleStatus()` return the
state unchanged — model, selection and all — and, being total
functions, do not throw. -/
theorem noop_without_node_selection (s : AppState)
    (h : s.diagram.selection = none ∨ ∃ l, s.diagram.selection = some (.link l)) :
    removeSelectedNode s = s ∧ toggleStatus s = s := by
  rcases h with h | ⟨l, h⟩ <;>
    exact ⟨by simp only [removeSelectedNode, h], by simp only [toggleStatus, h]⟩

theorem noop_without_node_selection_witness :
    initialAppState.diagram.selection = none
    ∧ removeSelectedNode initialAppState = initialAppState
    ∧ toggleStatus initialAppState = initialAppState :=
  ⟨rfl, noop_without_node_selection initialAppState (Or.inl rfl)⟩

/-- C5 counterexample: `selectExample` on an unknown id is not a complete
no-op — it still sets the `currentExample` signal (app.ts line 87 runs
before the switch), so the resulting state differs from the input
state. -/
theorem selectExample_unknown_not_noop :
    selectExample initialAppState "unknown-example" ≠ initialAppState := by
  intro h
  have h2 := congrArg AppState.currentExample h
  have h3 : ("unknown-example" : String) = "mental-model" := h2
  exact absurd h3 (by decide)

/-- C5 (amended): for an id outside the known examples, `selectExample`
leaves the entire diagram — node template, model, selection, undo
history — unchanged and does not crash; only the `currentExample`
signal is set to the id. -/
theorem selectExample_unknown_diagram_unchanged (s : AppState) (id : String)
    (h : templateForExample id = none) :
    (selectExample s id).diagram = s.diagram
    ∧ (selectExample s id).currentExample = id := by
  have hload : loadExample { s with currentExample := id } id
      = { s with currentExample := id } := by
    unfold loadExample
    split <;> first
      | rfl
      | simp [templateForExample] at h
  constructor
  · show (loadExample { s with currentExample := id } id).diagram = s.diagram
    rw [hload]
  · show (loadExample { s with currentExample := id } id).currentExample = id
    rw [hload]

theorem selectExample_unknown_diagram_unchanged_witness :
    templateForExample "unknown-example" = none
    ∧ (selectExample initialAppState "unknown-example").diagram
        = initialAppState.diagram :=
  ⟨rfl, (selectExample_unknown_diagram_unchanged initialAppState "unknown-example" rfl).1⟩

/-- C6: for every known example id, `selectExample` installs that
example's node template and rebuilds the diagram's model from the
current graph data, whose node and link record lists — including any
records added or removed since startup — are unchanged by the
rebuild. -/
theorem selectExample_known_preserves_records (s : AppState) (id : String)
    (t : NodeTemplate) (h : templateForExample id = some t) :
    (selectExample s id).diagram.model = s.diagram.model
    ∧ (selectExample s id).diagram.nodeTemplate = t := by
  unfold templateForExample at h
  unfold selectExample loadExample
  split at h <;> first
    | (cases h; exact ⟨rfl, rfl⟩)
    | exact absurd h (by simp)

theorem selectExample_known_preserves_records_witness :
    templateForExample "composition" = some templateComposition
    ∧ (selectExample initialAppState "composition").diagram.model
        = initialAppState.diagram.model
    ∧ (selectExample initialAppState "composition").diagram.nodeTemplate
        = templateComposition :=
  ⟨rfl, selectExample_known_preserves_records initialAppState "composition"
    templateComposition rfl⟩

/-- C2: when a node is selected, `removeSelectedNode()` removes exactly
that node's record from the model together with exactly those link
records one of whose endpoints is the node's key, and nothing else
(spec §4.3 cascade, §8). -/
theorem removeSelectedNode_removes_node_and_incident_links
    (s : AppState) (k : Key) (r : NodeData)
    (hsel : s.diagram.selection = some (.node k))
    (hfind : s.diagram.model.findNode k = some r) :
    (removeSelectedNode s).diagram.model.nodeDataArray
      = s.diagram.model.nodeDataArray.filter (fun n => !(n.key == k))
    ∧ (removeSelectedNode s).diagram.model.linkDataArray
      = s.diagram.model.linkDataArray.filter
          (fun l => !(l.«from» == k || l.«to» == k)) := by
  have hrk : r.key = k := findNode_key hfind
  subst hrk
  have hrmem : r ∈ s.diagram.model.nodeDataArray := findNode_mem hfind
  have hlinks : applyEdits s.diagram.model
      ((s.diagram.model.linkDataArray.filter
        (fun l => l.«from» == r.key || l.«to» == r.key)).map Edit.removeLink)
      = some { s.diagram.model with
          linkDataArray := s.diagram.model.linkDataArray.filter
            (fun l => !(l.«from» == r.key || l.«to» == r.key)) } := by
    rw [applyEdits_map_removeLink, eraseSeq_filter]
    rfl
  have hnode : applyEdit
      { s.diagram.model with
        linkDataArray := s.diagram.model.linkDataArray.filter
          (fun l => !(l.«from» == r.key || l.«to» == r.key)) }
      (.removeNode r)
      = some { nodeDataArray :=
                 s.diagram.model.nodeDataArray.filter (fun n => !(n.key == r.key))
               linkDataArray :=
                 s.diagram.model.linkDataArray.filter
                   (fun l => !(l.«from» == r.key || l.«to» == r.key)) } := by
    simp only [applyEdit]
    rw [if_pos (contains_true_iff.mpr hrmem)]
  have happly : applyEdits s.diagram.model
      ((s.diagram.model.linkDataArray.filter
        (fun l => l.«from» == r.key || l.«to» == r.key)).map Edit.removeLink
        ++ [Edit.removeNode r])
      = some { nodeDataArray :=
                 s.diagram.model.nodeDataArray.filter (fun n => !(n.key == r.key))
               linkDataArray :=
                 s.diagram.model.linkDataArray.filter
                   (fun l => !(l.«from» == r.key || l.«to» == r.key)) } := by
    rw [applyEdits_append, hlinks]
    simp only [applyEdits, hnode]
  simp only [removeSelectedNode, hsel, hfind, commitOn, happly]
  constructor <;> first | rfl | trivial

/-- C2 witness, the spec §8 scenario: removing node key `1` from the
sample dataset (nodes `{1,2,3}`, links `1→2`, `1→3`) leaves nodes
`{2,3}` and no links. -/
theorem removeSelectedNode_removes_node_and_incident_links_witness :
    (let s := { initialAppState with diagram :=
        { initialAppState.diagram with selection := some (.node (.int 1)) } }
     (removeSelectedNode s).diagram.model.nodeDataArray
        = s.diagram.model.nodeDataArray.filter (fun n => !(n.key == Key.int 1))
      ∧ (removeSelectedNode s).diagram.model.linkDataArray
        = s.diagram.model.linkDataArray.filter
            (fun l => !(l.«from» == Key.int 1 || l.«to» == Key.int 1)))
    ∧ (let s := { initialAppState with diagram :=
        { initialAppState.diagram with selection := some (.node (.int 1)) } }
       (removeSelectedNode s).diagram.model.nodeDataArray
          = [ { key := .int 2, name := "Bob", status := some "active",
                role := some "employee" }
            , { key := .int 3, name := "Charlie", status := some "inactive",
                role := some "employee" } ]
        ∧ (removeSelectedNode s).diagram.model.linkDataArray = []) :=
  ⟨removeSelectedNode_removes_node_and_incident_links _ (.int 1)
      { key := .int 1, name := "Alice", status := some "active", role := some "manager" }
      rfl rfl,
   by decide⟩

theorem toggleStatus_eq (s : AppState) (k : Key) (r : NodeData)
    (hsel : s.diagram.selection = some (.node k))
    (hfind : s.diagram.model.findNode k = some r) :
    toggleStatus s = commitOn s [Edit.setProperty k r.status
      (some (if r.status == some "active" then "inactive" else "active"))] := by
  simp only [toggleStatus, hsel, hfind]

theorem commitOn_setProperty (s : AppState) (k : Key) (r : NodeData) (v : Option String)
    (hfind : s.diagram.model.findNode k = some r) :
    commitOn s [Edit.setProperty k r.status v]
      = { s with diagram := { s.diagram with
            model := { s.diagram.model with
              nodeDataArray := s.diagram.model.nodeDataArray.map (updStatus k v) }
            undoStack := [Edit.setProperty k r.status v] :: s.diagram.undoStack
            redoStack := [] } } := by
  have happly : applyEdits s.diagram.model [Edit.setProperty k r.status v]
      = some { s.diagram.model with
          nodeDataArray := s.diagram.model.nodeDataArray.map (updStatus k v) } := by
    simp only [applyEdits, applyEdit_setProperty_of_findNode hfind v]
  simp only [commitOn, happly]


theorem updStatus_status_of_key {r : NodeData} {k : Key} (h : r.key = k)
    (v : Option String) : (updStatus k v r).status = v := by
  simp [updStatus, h]

theorem find?_updStatus_of_find? {nodes : List NodeData} {k : Key} {r : NodeData}
    (hfind : nodes.find? (fun n => n.key == k) = some r) (v : Option String) :
    (nodes.map (updStatus k v)).find? (fun n => n.key == k)
      = some (updStatus k v r) := by
  rw [find?_key_map_updStatus, hfind]
  rfl

/-- C3: toggling a selected node whose `status` is `"active"` sets it to
`"inactive"`, and a subsequent `undo()` restores `"active"`
(spec §8 scenario; the undo manager is modelled from spec §4.4). -/
theorem toggleStatus_active_then_undo (s : AppState) (k : Key) (r : NodeData)
    (hsel : s.diagram.selection = some (.node k))
    (hfind : s.diagram.model.findNode k = some r)
    (hstatus : r.status = some "active") :
    ((toggleStatus s).diagram.model.findNode k).map (·.status)
        = some (some "inactive")
    ∧ ((undo (toggleStatus s)).diagram.model.findNode k).map (·.status)
        = some (some "active") := by
  have hrk : r.key = k := findNode_key hfind
  have hfind' : s.diagram.model.nodeDataArray.find? (fun n => n.key == k) = some r := hfind
  have hv : (if r.status == some "active" then "inactive" else "active") = "inactive" := by
    rw [hstatus]; rfl
  have h1 : toggleStatus s
      = { s with diagram := { s.diagram with
            model := { s.diagram.model with
              nodeDataArray :=
                s.diagram.model.nodeDataArray.map (updStatus k (some "inactive")) }
            undoStack := [Edit.setProperty k (some "active") (some "inactive")]
              :: s.diagram.undoStack
            redoStack := [] } } := by
    rw [toggleStatus_eq s k r hsel hfind, hv,
        commitOn_setProperty s k r (some "inactive") hfind, hstatus]
  have hfind₁ : (s.diagram.model.nodeDataArray.map
      (updStatus k (some "inactive"))).find? (fun n => n.key == k)
      = some (updStatus k (some "inactive") r) :=
    find?_updStatus_of_find? hfind' _
  have hstat₁ : (updStatus k (some "inactive") r).status = some "inactive" :=
    updStatus_status_of_key hrk _
  constructor
  · simp only [h1, GraphModel.findNode, hfind₁, Option.map_some']
    rw [hstat₁]
  · have hguard : ((s.diagram.model.nodeDataArray.map (updStatus k (some "inactive"))).any
        (fun n => n.key == k && n.status == some "inactive")) = true := by
      apply List.any_eq_true.mpr
      refine ⟨updStatus k (some "inactive") r,
        List.mem_map.mpr ⟨r, List.mem_of_find?_eq_some hfind', rfl⟩, ?_⟩
      simp [updStatus_key, hrk, hstat₁]
    have hfind₂ : ((s.diagram.model.nodeDataArray.map (updStatus k (some "inactive"))).map
        (updStatus k (some "active"))).find? (fun n => n.key == k)
        = some (updStatus k (some "active") (updStatus k (some "inactive") r)) :=
      find?_updStatus_of_find? hfind₁ _
    simp only [h1, undo, List.reverse_cons, List.reverse_nil, List.nil_append,
      List.map_cons, List.map_nil, Edit.inverse, applyEdits, applyEdit, hguard,
      if_true, GraphModel.findNode, hfind₂, Option.map_some']
    rw [updStatus_status_of_key (by rw [updStatus_key, hrk]) _]

theorem toggleStatus_active_then_undo_witness :
    (let s := { initialAppState with diagram :=
        { initialAppState.diagram with selection := some (.node (.int 1)) } }
     s.diagram.selection = some (.node (.int 1))
     ∧ s.diagram.model.findNode (.int 1)
         = some { key := .int 1, name := "Alice", status := some "active",
                  role := some "manager" }
     ∧ ((toggleStatus s).diagram.model.findNode (.int 1)).map (·.status)
         = some (some "inactive")
     ∧ ((undo (toggleStatus s)).diagram.model.findNode (.int 1)).map (·.status)
         = some (some "active")) :=
  ⟨rfl, rfl, toggleStatus_active_then_undo _ (.int 1)
    { key := .int 1, name := "Alice", status := some "active", role := some "manager" }
    rfl rfl rfl⟩

/-- C10: toggling a selected node whose `status` is anything other than
`"active"` — `"inactive"` or missing — sets it to `"active"`
(`data.status === 'active' ? 'inactive' : 'active'`), and a second
toggle then yields `"inactive"`: starting from an undefined status, two
toggles end at `"inactive"`, not back at undefined, so the toggle is an
involution only on `{"active", "inactive"}`. -/
theorem toggleStatus_non_active_becomes_active (s : AppState) (k : Key) (r : NodeData)
    (hsel : s.diagram.selection = some (.node k))
    (hfind : s.diagram.model.findNode k = some r)
    (hstatus : r.status ≠ some "active") :
    ((toggleStatus s).diagram.model.findNode k).map (·.status)
        = some (some "active")
    ∧ ((toggleStatus (toggleStatus s)).diagram.model.findNode k).map (·.status)
        = some (some "inactive") := by
  have hrk : r.key = k := findNode_key hfind
  have hfind' : s.diagram.model.nodeDataArray.find? (fun n => n.key == k) = some r := hfind
  have hb : (r.status == some "active") = false := by
    simpa using hstatus
  have hv : (if r.status == some "active" then "inactive" else "active") = "active" := by
    rw [hb]; rfl
  have h1 : toggleStatus s
      = { s with diagram := { s.diagram with
            model := { s.diagram.model with
              nodeDataArray :=
                s.diagram.model.nodeDataArray.map (updStatus k (some "active")) }
            undoStack := [Edit.setProperty k r.status (some "active")]
              :: s.diagram.undoStack
            redoStack := [] } } := by
    rw [toggleStatus_eq s k r hsel hfind, hv,
        commitOn_setProperty s k r (some "active") hfind]
  have hfind₁ : (s.diagram.model.nodeDataArray.map
      (updStatus k (some "active"))).find? (fun n => n.key == k)
      = some (updStatus k (some "active") r) :=
    find?_updStatus_of_find? hfind' _
  have hstat₁ : (updStatus k (some "active") r).status = some "active" :=
    updStatus_status_of_key hrk _
  have hrk₁ : (updStatus k (some "active") r).key = k := by rw [updStatus_key, hrk]
  constructor
  · simp only [h1, GraphModel.findNode, hfind₁, Option.map_some']
    rw [hstat₁]
  · have hsel₁ : (toggleStatus s).diagram.selection = some (.node k) := by
      rw [h1]; exact hsel
    have hfindm₁ : (toggleStatus s).diagram.model.findNode k
        = some (updStatus k (some "active") r) := by
      rw [h1]; exact hfind₁
    have hv₂ : (if (updStatus k (some "active") r).status == some "active"
        then "inactive" else "active") = "inactive" := by
      rw [hstat₁]; rfl
    have h2 : toggleStatus (toggleStatus s)
        = { toggleStatus s with diagram := { (toggleStatus s).diagram with
              model := { (toggleStatus s).diagram.model with
                nodeDataArray :=
                  (toggleStatus s).diagram.model.nodeDataArray.map
                    (updStatus k (some "inactive")) }
              undoStack := [Edit.setProperty k (updStatus k (some "active") r).status
                  (some "inactive")] :: (toggleStatus s).diagram.undoStack
              redoStack := [] } } := by
      rw [toggleStatus_eq (toggleStatus s) k (updStatus k (some "active") r) hsel₁ hfindm₁,
          hv₂, commitOn_setProperty (toggleStatus s) k (updStatus k (some "active") r)
            (some "inactive") hfindm₁]
    have hfindlist₁ : (toggleStatus s).diagram.model.nodeDataArray.find?
        (fun n => n.key == k) = some (updStatus k (some "active") r) := hfindm₁
    have hfind₂ : ((toggleStatus s).diagram.model.nodeDataArray.map
        (updStatus k (some "inactive"))).find? (fun n => n.key == k)
        = some (updStatus k (some "inactive") (updStatus k (some "active") r)) :=
      find?_updStatus_of_find? hfindlist₁ _
    simp only [h2, GraphModel.findNode, hfind₂, Option.map_some']
    rw [updStatus_status_of_key hrk₁ _]

theorem toggleStatus_non_active_becomes_active_witness :
    (let s : AppState :=
      { currentExample := "mental-model"
        diagram :=
          { model := { nodeDataArray := [{ key := .int 4, name := "Dana" }]
                       linkDataArray := [] }
            selection := some (.node (.int 4))
            nodeTemplate := createBasicNodeTemplate } }
     s.diagram.selection = some (.node (.int 4))
     ∧ s.diagram.model.findNode (.int 4) = some { key := .int 4, name := "Dana" }
     ∧ ({ key := .int 4, name := "Dana" } : NodeData).status ≠ some "active"
     ∧ ((toggleStatus s).diagram.model.findNode (.int 4)).map (·.status)
         = some (some "active")
     ∧ ((toggleStatus (toggleStatus s)).diagram.model.findNode (.int 4)).map (·.status)
         = some (some "inactive")) :=
  ⟨rfl, rfl, by decide,
   toggleStatus_non_active_becomes_active _ (.int 4) { key := .int 4, name := "Dana" }
     rfl rfl (by decide)⟩

/-- The diagram state immediately after committing transaction `T`
(model `post`, `T` newest on the undo stack). -/
def committedState (post : GraphModel) (T : List Edit) (rest R : List (List Edit))
    (sel : Option DiagPart) (tmpl : NodeTemplate) (cur : String) : AppState :=
  { currentExample := cur
    diagram := { model := post, undoStack := T :: rest, redoStack := R,
                 selection := sel, nodeTemplate := tmpl } }

/-- C7: after a committed transaction `T` taking the model from `pre` to
`post`, `undo()` restores the pre-transaction model up to value equality
of the node and link record sets, moving `T` to the redo stack, and
`redo()` after `undo()` restores the post-transaction model, moving `T`
back (spec §4.4, §8; uniqueness of keys in `pre` is the standing model
invariant). -/
theorem undo_redo_roundtrip (pre post : GraphModel) (T : List Edit)
    (rest R : List (List Edit)) (sel : Option DiagPart) (tmpl : NodeTemplate)
    (cur : String) (hn : pre.NodupKeys) (h : applyEdits pre T = some post) :
    MEquiv (undo (committedState post T rest R sel tmpl cur)).diagram.model pre
    ∧ (undo (committedState post T rest R sel tmpl cur)).diagram.undoStack = rest
    ∧ (undo (committedState post T rest R sel tmpl cur)).diagram.redoStack = T :: R
    ∧ MEquiv (redo (undo (committedState post T rest R sel tmpl cur))).diagram.model post
    ∧ (redo (undo (committedState post T rest R sel tmpl cur))).diagram.undoStack
        = T :: rest
    ∧ (redo (undo (committedState post T rest R sel tmpl cur))).diagram.redoStack = R := by
  obtain ⟨m'', hm'', hp⟩ := applyEdits_reverse_inverse hn h
  have hundo : undo (committedState post T rest R sel tmpl cur)
      = { currentExample := cur
          diagram := { model := m'', undoStack := rest, redoStack := T :: R,
                       selection := sel, nodeTemplate := tmpl } } := by
    simp only [undo, committedState, hm'']
  obtain ⟨z, hz, hpz⟩ := applyEdits_perm hp.symm h
  have hredo : redo ({ currentExample := cur
                       diagram := { model := m'', undoStack := rest, redoStack := T :: R,
                                    selection := sel, nodeTemplate := tmpl } } : AppState)
      = { currentExample := cur
          diagram := { model := z, undoStack := T :: rest, redoStack := R,
                       selection := sel, nodeTemplate := tmpl } } := by
    simp only [redo, hz]
  refine ⟨?_, ?_, ?_, ?_, ?_, ?_⟩
  · rw [hundo]; exact hp
  · rw [hundo]
  · rw [hundo]
  · rw [hundo, hredo]; exact hpz.symm
  · rw [hundo, hredo]
  · rw [hundo, hredo]

/-- Pre-transaction model for the round-trip demonstration. -/
def undoDemoPre : GraphModel :=
  { nodeDataArray := initialNodeDataArray, linkDataArray := initialLinkDataArray }

/-- One-edit transaction toggling Alice's status. -/
def undoDemoT : List Edit :=
  [Edit.setProperty (.int 1) (some "active") (some "inactive")]

/-- Post-transaction model for the round-trip demonstration. -/
def undoDemoPost : GraphModel :=
  { nodeDataArray :=
      [ { key := .int 1, name := "Alice", status := some "inactive",
          role := some "manager" }
      , { key := .int 2, name := "Bob", status := some "active",
          role := some "employee" }
      , { key := .int 3, name := "Charlie", status := some "inactive",
          role := some "employee" } ]
    linkDataArray := initialLinkDataArray }

theorem undo_redo_roundtrip_witness :
    undoDemoPre.NodupKeys
    ∧ applyEdits undoDemoPre undoDemoT = some undoDemoPost
    ∧ MEquiv (undo (committedState undoDemoPost undoDemoT [] [] none
        createBasicNodeTemplate "mental-model")).diagram.model undoDemoPre
    ∧ MEquiv (redo (undo (committedState undoDemoPost undoDemoT [] [] none
        createBasicNodeTemplate "mental-model"))).diagram.model undoDemoPost :=
  ⟨by decide, by decide,
   (undo_redo_roundtrip undoDemoPre undoDemoPost undoDemoT [] [] none
     createBasicNodeTemplate "mental-model" (by decide) (by decide)).1,
   (undo_redo_roundtrip undoDemoPre undoDemoPost undoDemoT [] [] none
     createBasicNodeTemplate "mental-model" (by decide) (by decide)).2.2.2.1⟩

/-- C1 counterexample: the key computed by `addNode()` can equal the key
of an existing node.  Remove all three sample nodes, then call
`addNode()`: `Math.max(...[])` is `-Infinity`, so a node with key
`-Infinity` is added; at the next `addNode()` the computed key
`Math.max(-Infinity) + 1 = -Infinity` equals that node's key.  (The
model still rejects the duplicate, so no two live nodes ever share a
key.) -/
theorem addNode_key_collision_cex :
    newNodeKey (runSteps initialAppState
      [ .select (some (.node (.int 1))), .removeSelectedNode
      , .select (some (.node (.int 2))), .removeSelectedNode
      , .select (some (.node (.int 3))), .removeSelectedNode
      , .addNode ]).diagram.model
    ∈ (runSteps initialAppState
      [ .select (some (.node (.int 1))), .removeSelectedNode
      , .select (some (.node (.int 2))), .removeSelectedNode
      , .select (some (.node (.int 3))), .removeSelectedNode
      , .addNode ]).diagram.model.nodeDataArray.map (·.key) := by
  decide

/-- C1 (amended): (1) across every sequence of user operations from the
initial data — `addNode`, `removeSelectedNode`, and any interleaved
selection, example switching, toggling, undo or redo — no two live
nodes in the model ever share a key (`addNodeData` rejects a duplicate
key, leaving the model unchanged); (2) the key `addNode()` computes,
`Math.max(...keys) + 1`, never equals the key of an existing node
provided every live key is a finite integer — which can only fail for
the `-Infinity` key produced after the node array has been emptied. -/
theorem nodeKeys_nodup_and_freshKey_over_int_keys :
    (∀ steps : List UserStep,
      (runSteps initialAppState steps).diagram.model.NodupKeys)
    ∧ ∀ m : GraphModel, (∀ k ∈ m.nodeDataArray.map (·.key), k ≠ Key.negInf) →
        newNodeKey m ∉ m.nodeDataArray.map (·.key) :=
  ⟨fun steps => runSteps_nodupKeys _ _ (by decide),
   fun _ hfin => newNodeKey_not_mem hfin⟩

theorem nodeKeys_nodup_and_freshKey_over_int_keys_witness :
    (runSteps initialAppState
      [.addNode, .select (some (.node (.int 2))), .removeSelectedNode,
       .toggleStatus]).diagram.model.NodupKeys
    ∧ (∀ k ∈ initialAppState.diagram.model.nodeDataArray.map (·.key), k ≠ Key.negInf)
    ∧ newNodeKey initialAppState.diagram.model
        ∉ initialAppState.diagram.model.nodeDataArray.map (·.key) :=
  ⟨nodeKeys_nodup_and_freshKey_over_int_keys.1 _, by decide,
   nodeKeys_nodup_and_freshKey_over_int_keys.2 initialAppState.diagram.model (by decide)⟩
